import Mathlib

/-!
Verification of the core of the Atari macro-automation engine.

The definitions below are shallow embeddings of the Python source:
* `atari/core/geometry.py` — `rect_to_rel`, `rel_to_rect`, `_clamp01`;
* `atari/core/models.py` — `WordAreaAction.resolve_target_rect_global`,
  `WaitEventAction.resolve_target_rect_global`, OCR-language normalisation;
* `atari/runtime/player.py` — `MacroPlayer._mark_end`, `_sleep_checked`,
  the finite text-search loop, the long-press scheduler
  (`_execute_key_long_press_items`), the `BaseArea` branch of `run`,
  and the progress accounting of `run`.

Machine integers are modelled as `ℤ` (Python ints are unbounded), Python
floats as `ℚ` (exact arithmetic; the float values appearing here are small
decimal constants and screen coordinates, far from any rounding anomaly),
and `int(round(x))` as `pyRound` (round-half-to-even, Python semantics).
`QRect` follows Qt semantics: a rectangle stores its two corner points and
`width() = x2 - x1 + 1`.
-/

namespace Atari

/-- Corner-point rectangle with Qt `QRect` semantics. -/
structure QR where
  x1 : ℤ
  y1 : ℤ
  x2 : ℤ
  y2 : ℤ
deriving DecidableEq, Repr

/-- Qt `QRect.width()`. -/
def QR.width (r : QR) : ℤ := r.x2 - r.x1 + 1

/-- Qt `QRect.height()`. -/
def QR.height (r : QR) : ℤ := r.y2 - r.y1 + 1

/-- Qt `QRect.isValid()`: positive width and height. -/
def QR.isValidB (r : QR) : Bool := decide (r.x1 ≤ r.x2) && decide (r.y1 ≤ r.y2)

/-- Qt 6 `QRect.normalized()`: swap the x corners when `x2 < x1`, and the
y corners when `y2 < y1`. -/
def QR.normalized (r : QR) : QR :=
  let rx := if r.x2 < r.x1 then { r with x1 := r.x2, x2 := r.x1 } else r
  if rx.y2 < rx.y1 then { rx with y1 := rx.y2, y2 := rx.y1 } else rx

/-- Python `int(round(q))`: round half to even (geometry.py uses
`int(round(...))` in `rel_to_rect`). -/
def pyRound (q : ℚ) : ℤ :=
  let f : ℤ := ⌊q⌋
  let frac : ℚ := q - (f : ℚ)
  if frac < 1/2 then f
  else if 1/2 < frac then f + 1
  else if 2 ∣ f then f else f + 1

/-- geometry.py `_clamp01`. -/
def clamp01 (v : ℚ) : ℚ :=
  if v < 0 then 0 else if 1 < v then 1 else v

/-- geometry.py `rect_to_rel(base, r)`: fractional coordinates of `r`
against `base`, each clamped to `[0,1]`. -/
def rect_to_rel (base0 r0 : QR) : ℚ × ℚ × ℚ × ℚ :=
  let base := base0.normalized
  let r := r0.normalized
  let dx : ℤ := max 1 (base.width - 1)
  let dy : ℤ := max 1 (base.height - 1)
  (clamp01 (((r.x1 - base.x1 : ℤ) : ℚ) / (dx : ℚ)),
   clamp01 (((r.y1 - base.y1 : ℤ) : ℚ) / (dy : ℚ)),
   clamp01 (((r.x2 - base.x1 : ℤ) : ℚ) / (dx : ℚ)),
   clamp01 (((r.y2 - base.y1 : ℤ) : ℚ) / (dy : ℚ)))

/-- geometry.py `rel_to_rect(base, rx1, ry1, rx2, ry2)`: the inverse map,
rounding to nearest integer and re-normalising. -/
def rel_to_rect (base0 : QR) (rx1 ry1 rx2 ry2 : ℚ) : QR :=
  let base := base0.normalized
  let dx : ℤ := max 1 (base.width - 1)
  let dy : ℤ := max 1 (base.height - 1)
  let a1 := clamp01 rx1
  let b1 := clamp01 ry1
  let a2 := clamp01 rx2
  let b2 := clamp01 ry2
  (QR.mk (base.x1 + pyRound (a1 * (dx : ℚ))) (base.y1 + pyRound (b1 * (dy : ℚ)))
    (base.x1 + pyRound (a2 * (dx : ℚ))) (base.y1 + pyRound (b2 * (dy : ℚ)))).normalized

theorem QR.normalized_eq_self (r : QR) (hx : r.x1 ≤ r.x2) (hy : r.y1 ≤ r.y2) :
    r.normalized = r := by
  simp [QR.normalized, not_lt.mpr hx, not_lt.mpr hy]

theorem pyRound_intCast (n : ℤ) : pyRound (n : ℚ) = n := by
  simp only [pyRound, Int.floor_intCast, sub_self]
  norm_num

theorem clamp01_eq_self (v : ℚ) (h0 : 0 ≤ v) (h1 : v ≤ 1) : clamp01 v = v := by
  simp [clamp01, not_lt.mpr h0, not_lt.mpr h1]

theorem roundtrip_coord (lo hi v : ℤ) (hd : 1 ≤ hi - lo) (h1 : lo ≤ v) (h2 : v ≤ hi) :
    lo + pyRound (clamp01 (clamp01 (((v - lo : ℤ) : ℚ) / ((hi - lo : ℤ) : ℚ)))
      * ((hi - lo : ℤ) : ℚ)) = v := by
  have hdq : (0 : ℚ) < ((hi - lo : ℤ) : ℚ) := by exact_mod_cast lt_of_lt_of_le Int.zero_lt_one hd
  have h0 : (0 : ℚ) ≤ ((v - lo : ℤ) : ℚ) / ((hi - lo : ℤ) : ℚ) := by
    apply div_nonneg _ (le_of_lt hdq)
    exact_mod_cast Int.sub_nonneg.mpr h1
  have h1q : ((v - lo : ℤ) : ℚ) / ((hi - lo : ℤ) : ℚ) ≤ 1 := by
    rw [div_le_one hdq]
    exact_mod_cast Int.sub_le_sub_right h2 lo
  rw [clamp01_eq_self _ h0 h1q, clamp01_eq_self _ h0 h1q,
    div_mul_cancel₀ _ (ne_of_gt hdq), pyRound_intCast]
  omega

theorem rect_roundtrip_exact (base r : QR)
    (hbw : 2 ≤ base.width) (hbh : 2 ≤ base.height)
    (hrx : r.x1 ≤ r.x2) (hry : r.y1 ≤ r.y2)
    (hl : base.x1 ≤ r.x1) (hr : r.x2 ≤ base.x2)
    (ht : base.y1 ≤ r.y1) (hb : r.y2 ≤ base.y2) :
    rel_to_rect base (rect_to_rel base r).1 (rect_to_rel base r).2.1
      (rect_to_rel base r).2.2.1 (rect_to_rel base r).2.2.2 = r := by
  have hbx : base.x1 ≤ base.x2 := by unfold QR.width at hbw; omega
  have hby : base.y1 ≤ base.y2 := by unfold QR.height at hbh; omega
  have hbn : base.normalized = base := QR.normalized_eq_self base hbx hby
  have hrn : r.normalized = r := QR.normalized_eq_self r hrx hry
  have hdx : max 1 (base.width - 1) = base.x2 - base.x1 := by unfold QR.width at hbw ⊢; omega
  have hdy : max 1 (base.height - 1) = base.y2 - base.y1 := by unfold QR.height at hbh ⊢; omega
  have hdx1 : 1 ≤ base.x2 - base.x1 := by unfold QR.width at hbw; omega
  have hdy1 : 1 ≤ base.y2 - base.y1 := by unfold QR.height at hbh; omega
  simp only [rect_to_rel, rel_to_rect, hbn, hrn, hdx, hdy]
  rw [roundtrip_coord base.x1 base.x2 r.x1 hdx1 hl (le_trans hrx hr),
    roundtrip_coord base.y1 base.y2 r.y1 hdy1 ht (le_trans hry hb),
    roundtrip_coord base.x1 base.x2 r.x2 hdx1 (le_trans hl hrx) hr,
    roundtrip_coord base.y1 base.y2 r.y2 hdy1 (le_trans ht hry) hb]
  exact QR.normalized_eq_self ⟨r.x1, r.y1, r.x2, r.y2⟩ hrx hry

/-- C6: for every base rectangle with width ≥ 2 and height ≥ 2 and every
rectangle fully inside it, mapping through `rect_to_rel` and back through
`rel_to_rect` against the same base reproduces the original rectangle
within 1 unit per edge (here in fact exactly, which implies the bound). -/
theorem rect_rel_roundtrip_within_one (base r : QR)
    (hbw : 2 ≤ base.width) (hbh : 2 ≤ base.height)
    (hrx : r.x1 ≤ r.x2) (hry : r.y1 ≤ r.y2)
    (hl : base.x1 ≤ r.x1) (hr : r.x2 ≤ base.x2)
    (ht : base.y1 ≤ r.y1) (hb : r.y2 ≤ base.y2) :
    |(rel_to_rect base (rect_to_rel base r).1 (rect_to_rel base r).2.1
        (rect_to_rel base r).2.2.1 (rect_to_rel base r).2.2.2).x1 - r.x1| ≤ 1 ∧
    |(rel_to_rect base (rect_to_rel base r).1 (rect_to_rel base r).2.1
        (rect_to_rel base r).2.2.1 (rect_to_rel base r).2.2.2).y1 - r.y1| ≤ 1 ∧
    |(rel_to_rect base (rect_to_rel base r).1 (rect_to_rel base r).2.1
        (rect_to_rel base r).2.2.1 (rect_to_rel base r).2.2.2).x2 - r.x2| ≤ 1 ∧
    |(rel_to_rect base (rect_to_rel base r).1 (rect_to_rel base r).2.1
        (rect_to_rel base r).2.2.1 (rect_to_rel base r).2.2.2).y2 - r.y2| ≤ 1 := by
  rw [rect_roundtrip_exact base r hbw hbh hrx hry hl hr ht hb]
  simp

/-- C6 witness: concrete base `(0,0)-(9,9)` and inner rectangle `(2,3)-(5,7)`. -/
theorem rect_rel_roundtrip_within_one_witness :
    (2 ≤ (QR.mk 0 0 9 9).width ∧ 2 ≤ (QR.mk 0 0 9 9).height) ∧
    |(rel_to_rect (QR.mk 0 0 9 9) (rect_to_rel (QR.mk 0 0 9 9) (QR.mk 2 3 5 7)).1
        (rect_to_rel (QR.mk 0 0 9 9) (QR.mk 2 3 5 7)).2.1
        (rect_to_rel (QR.mk 0 0 9 9) (QR.mk 2 3 5 7)).2.2.1
        (rect_to_rel (QR.mk 0 0 9 9) (QR.mk 2 3 5 7)).2.2.2).x1 - (QR.mk 2 3 5 7).x1| ≤ 1 :=
  ⟨by decide,
    (rect_rel_roundtrip_within_one (QR.mk 0 0 9 9) (QR.mk 2 3 5 7) (by decide) (by decide)
      (by decide) (by decide) (by decide) (by decide) (by decide) (by decide)).1⟩

/-! player.py: terminal end state (`MacroPlayer._mark_end`, lines 75-78). -/

/-- End-state record: `MacroPlayer.end_state` / `end_reason`. -/
structure EngineEnd where
  state : String
  reason : String
deriving DecidableEq, Repr

/-- Initial end state set in `MacroPlayer.__init__`. -/
def initEnd : EngineEnd := ⟨"done", ""⟩

/-- player.py `MacroPlayer._mark_end(state, reason)`: records the terminal
state only while the current state is still the default `"done"`. -/
def mark_end (e : EngineEnd) (st r : String) : EngineEnd :=
  if e.state = "done" then ⟨st, r⟩ else e

/-- C4: once the end state has been recorded as anything other than the
default `"done"`, every later `_mark_end` call leaves both the state and the
reason unchanged; in particular after a first non-`"done"` write, a second
write of any state and reason has no effect. -/
theorem mark_end_first_writer_wins :
    (∀ (e : EngineEnd) (st r : String), e.state ≠ "done" → mark_end e st r = e) ∧
    (∀ (st1 r1 st2 r2 : String), st1 ≠ "done" →
      mark_end (mark_end initEnd st1 r1) st2 r2 = ⟨st1, r1⟩) := by
  constructor
  · intro e st r h
    simp [mark_end, h]
  · intro st1 r1 st2 r2 h
    simp [mark_end, initEnd, h]

/-- C4 witness: a recorded `"error"` state survives a later `"stopped"` write. -/
theorem mark_end_first_writer_wins_witness :
    (EngineEnd.mk "error" "boom").state ≠ "done" ∧
    mark_end (EngineEnd.mk "error" "boom") "stopped" "later" = EngineEnd.mk "error" "boom" :=
  ⟨by decide, mark_end_first_writer_wins.1 (EngineEnd.mk "error" "boom") "stopped" "later" (by decide)⟩

/-! player.py: interruptible sleep (`_sleep_checked`, lines 624-638).
One `SleepTick` is one iteration of the `while remaining > 0` loop:
`stopBefore` is the stop-event check at the loop top, `pauseAborted` says
whether `_wait_if_paused` returned `False` (stop requested during pause),
`pausedFor` is the wall-clock time spent blocked in `_wait_if_paused`, and
`slept` is the `perf_counter` elapsed time measured around `time.sleep(chunk)`. -/

structure SleepTick where
  stopBefore : Bool
  pauseAborted : Bool
  pausedFor : ℚ
  slept : ℚ
deriving DecidableEq, Repr

structure SleepOut where
  finished : Option Bool
  remaining : ℚ
  chunks : List ℚ
  counted : List ℚ
deriving DecidableEq, Repr

/-- player.py `_sleep_checked` loop body; the tick list is the fuel (the
environment schedule of the loop iterations actually executed). -/
def sleep_loop : List SleepTick → ℚ → SleepOut
  | [], r => if r ≤ 0 then ⟨some true, r, [], []⟩ else ⟨none, r, [], []⟩
  | t :: ts, r =>
    if r ≤ 0 then ⟨some true, r, [], []⟩
    else if t.stopBefore then ⟨some false, r, [], []⟩
    else if t.pauseAborted then ⟨some false, r, [], []⟩
    else
      let chunk := min (1/100 : ℚ) r
      let rest := sleep_loop ts (r - t.slept)
      ⟨rest.finished, rest.remaining, chunk :: rest.chunks, t.slept :: rest.counted⟩

/-- player.py `_sleep_checked(sec)`: `remaining = max(0.0, float(sec))`. -/
def sleep_checked (ticks : List SleepTick) (sec : ℚ) : SleepOut :=
  sleep_loop ticks (max 0 sec)

/-- A tick with its pause duration forgotten. -/
def SleepTick.pauseErased (t : SleepTick) : SleepTick := { t with pausedFor := 0 }

theorem sleep_loop_remaining (ticks : List SleepTick) :
    ∀ r : ℚ, (sleep_loop ticks r).remaining = r - (sleep_loop ticks r).counted.sum := by
  induction ticks with
  | nil =>
    intro r
    by_cases h : r ≤ 0 <;> simp [sleep_loop, h]
  | cons t ts ih =>
    intro r
    by_cases h0 : r ≤ 0
    · simp [sleep_loop, h0]
    · by_cases h1 : t.stopBefore
      · simp [sleep_loop, h0, h1]
      · by_cases h2 : t.pauseAborted
        · simp [sleep_loop, h0, h1, h2]
        · simp only [sleep_loop, if_neg h0, if_neg h1, if_neg h2]
          simp [ih (r - t.slept)]
          ring

theorem sleep_loop_chunk_bound (ticks : List SleepTick) :
    ∀ r : ℚ, ∀ c ∈ (sleep_loop ticks r).chunks, 0 < c ∧ c ≤ 1/100 := by
  induction ticks with
  | nil =>
    intro r c hc
    by_cases h : r ≤ 0 <;> simp [sleep_loop, h] at hc
  | cons t ts ih =>
    intro r c hc
    by_cases h0 : r ≤ 0
    · simp [sleep_loop, h0] at hc
    · by_cases h1 : t.stopBefore
      · simp [sleep_loop, h0, h1] at hc
      · by_cases h2 : t.pauseAborted
        · simp [sleep_loop, h0, h1, h2] at hc
        · simp only [sleep_loop, if_neg h0, if_neg h1, if_neg h2, List.mem_cons] at hc
          rcases hc with rfl | hc
          · exact ⟨lt_min (by norm_num) (lt_of_not_le h0), min_le_left _ _⟩
          · exact ih (r - t.slept) c hc

theorem sleep_loop_pause_blind (ticks : List SleepTick) :
    ∀ r : ℚ, sleep_loop (ticks.map SleepTick.pauseErased) r = sleep_loop ticks r := by
  induction ticks with
  | nil => intro r; rfl
  | cons t ts ih =>
    intro r
    simp only [List.map_cons, sleep_loop, SleepTick.pauseErased, ih (r - t.slept)]

/-- C5: in `_sleep_checked`, the remaining delay is decremented exactly by the
time actually measured around each `time.sleep` chunk (so the final remaining
value is the initial delay minus the sum of the counted sleep times), every
chunk passed to `time.sleep` is positive and at most 10 ms, and the result is
completely independent of how long the pause gate kept each iteration blocked
(time spent paused is never counted toward the elapsed delay). -/
theorem sleep_checked_spec (ticks : List SleepTick) (sec : ℚ) :
    (sleep_checked ticks sec).remaining
        = max 0 sec - ((sleep_checked ticks sec).counted).sum ∧
    (∀ c ∈ (sleep_checked ticks sec).chunks, 0 < c ∧ c ≤ 1/100) ∧
    sleep_checked (ticks.map SleepTick.pauseErased) sec = sleep_checked ticks sec :=
  ⟨sleep_loop_remaining ticks (max 0 sec),
   fun c hc => sleep_loop_chunk_bound ticks (max 0 sec) c hc,
   sleep_loop_pause_blind ticks (max 0 sec)⟩

/-- C5 witness: one uninterrupted 10 ms chunk of a 1-second delay, with a
2-second pause inside the iteration, satisfies the chunk bound. -/
theorem sleep_checked_spec_witness :
    (1/100 : ℚ) ∈ (sleep_checked [SleepTick.mk false false 2 (1/100)] 1).chunks ∧
    (0 < (1/100 : ℚ) ∧ (1/100 : ℚ) ≤ 1/100) :=
  ⟨by norm_num [sleep_checked, sleep_loop],
   (sleep_checked_spec [SleepTick.mk false false 2 (1/100)] 1).2.1 (1/100)
     (by norm_num [sleep_checked, sleep_loop])⟩

/-! player.py: finite text-search retry loop (the `WordAreaAction` branch of
`MacroPlayer.run` with `search_infinite = False`, lines 1262-1328). The region
resolver is abstracted as an environment `resolver : ℕ → Option QR` giving the
result of the n-th resolver call of the run; external stop requests and pauses
are absent (the scenario the claim describes). -/

/-- player.py `RETRY_DELAY = 0.12`. -/
def retryDelay : ℚ := 12/100

/-- player.py `ROUND_DELAY = 5.0`. -/
def roundDelay : ℚ := 5

/-- player.py acceptance test of a resolver result:
`found and found.isValid() and found.width() > 2 and found.height() > 2`. -/
def acceptableB (f : Option QR) : Bool :=
  match f with
  | some r => r.isValidB && decide (2 < r.width) && decide (2 < r.height)
  | none => false

/-- player.py `search_on_fail` after normalisation (`retry`, `error`, `action`). -/
inductive OnFail
  | retry
  | error
  | action
deriving DecidableEq, Repr

/-- player.py failure message
`f"Не смог найти слово '{a.word}' в зоне после {max_tries} попыток."`. -/
def failMsg (word : String) (maxTries : ℕ) : String :=
  "Не смог найти слово '" ++ word ++ "' в зоне после " ++ toString maxTries ++ " попыток."

/-- The inner `for attempt in range(1, max_tries + 1)` loop: `c` is the global
resolver-call counter, the second argument the number of attempts left.
Returns the counter after the loop, the backoff sleeps performed between
attempts (`RETRY_DELAY` after every failed non-final attempt), and the last
resolver result. -/
def try_attempts (resolver : ℕ → Option QR) : ℕ → ℕ → ℕ × List ℚ × Option QR
  | c, 0 => (c, [], none)
  | c, remaining + 1 =>
    let f := resolver c
    if acceptableB f then (c + 1, [], f)
    else if remaining = 0 then (c + 1, [], f)
    else
      let rest := try_attempts resolver (c + 1) remaining
      (rest.1, retryDelay :: rest.2.1, rest.2.2)

structure FinOut where
  calls : ℕ
  sleeps : List ℚ
  ends : EngineEnd
  stopFlag : Bool
  found : Option QR
deriving DecidableEq, Repr

/-- The outer `while True` round loop of the finite search: on exhaustion of
`max_tries` attempts it applies `on_fail` — `error` marks the terminal error
state and sets the stop event, `action` leaves for the fail branch, `retry`
sleeps `ROUND_DELAY` and starts another round (`fuel` bounds the rounds). -/
def word_area_finite_search (resolver : ℕ → Option QR) (maxTries : ℕ) (onFail : OnFail)
    (word : String) : ℕ → ℕ → EngineEnd → FinOut
  | 0, c, e => ⟨c, [], e, false, none⟩
  | fuel + 1, c, e =>
    let t := try_attempts resolver c maxTries
    if acceptableB t.2.2 then ⟨t.1, t.2.1, e, false, t.2.2⟩
    else
      match onFail with
      | OnFail.error => ⟨t.1, t.2.1, mark_end e "error" (failMsg word maxTries), true, none⟩
      | OnFail.action => ⟨t.1, t.2.1, e, false, none⟩
      | OnFail.retry =>
        let rest := word_area_finite_search resolver maxTries OnFail.retry word fuel t.1 e
        ⟨rest.calls, t.2.1 ++ roundDelay :: rest.sleeps, rest.ends, rest.stopFlag, rest.found⟩

theorem str_append_assoc (a b c : String) : a ++ b ++ c = a ++ (b ++ c) := by
  apply String.ext
  simp

theorem failMsg_names_word (word : String) (n : ℕ) :
    ∃ p s, failMsg word n = p ++ word ++ s := by
  refine ⟨"Не смог найти слово '", "' в зоне после " ++ toString n ++ " попыток.", ?_⟩
  simp only [failMsg, str_append_assoc]

theorem try_attempts_all_fail (resolver : ℕ → Option QR)
    (hnone : ∀ n, acceptableB (resolver n) = false) (c : ℕ) :
    try_attempts resolver c 3 = (c + 3, [retryDelay, retryDelay], resolver (c + 2)) := by
  simp [try_attempts, hnone]

/-- C1: on a `TextArea` action with `searchInfinite = false`, `maxTries = 3`,
`onFail = Error`, if the region resolver never returns an acceptable match the
engine performs exactly 3 resolver calls, sleeps the fixed 0.12 s backoff
between consecutive attempts (twice), records the terminal end state
`"error"` with the failure message as reason — a message that contains the
action's target word — and sets the stop event. -/
theorem text_area_three_tries_error (resolver : ℕ → Option QR) (word : String) (fuel : ℕ)
    (hfuel : 1 ≤ fuel) (hnone : ∀ n, acceptableB (resolver n) = false) :
    (word_area_finite_search resolver 3 OnFail.error word fuel 0 initEnd).calls = 3 ∧
    (word_area_finite_search resolver 3 OnFail.error word fuel 0 initEnd).sleeps
        = [retryDelay, retryDelay] ∧
    (word_area_finite_search resolver 3 OnFail.error word fuel 0 initEnd).ends.state
        = "error" ∧
    (word_area_finite_search resolver 3 OnFail.error word fuel 0 initEnd).ends.reason
        = failMsg word 3 ∧
    (word_area_finite_search resolver 3 OnFail.error word fuel 0 initEnd).stopFlag = true ∧
    ∃ p s, (word_area_finite_search resolver 3 OnFail.error word fuel 0 initEnd).ends.reason
        = p ++ word ++ s := by
  obtain ⟨k, rfl⟩ : ∃ k, fuel = k + 1 := ⟨fuel - 1, by omega⟩
  simp only [word_area_finite_search, try_attempts_all_fail resolver hnone 0, hnone]
  simp [mark_end, initEnd]
  exact failMsg_names_word word 3

/-- C1 witness: a resolver stub that never finds anything, target word `"up"`,
one round of fuel. -/
theorem text_area_three_tries_error_witness :
    (1 ≤ 1 ∧ ∀ n : ℕ, acceptableB ((fun _ : ℕ => (none : Option QR)) n) = false) ∧
    (word_area_finite_search (fun _ : ℕ => (none : Option QR)) 3 OnFail.error "up" 1 0
        initEnd).calls = 3 ∧
    (word_area_finite_search (fun _ : ℕ => (none : Option QR)) 3 OnFail.error "up" 1 0
        initEnd).ends.state = "error" :=
  ⟨⟨le_refl 1, fun _ => rfl⟩,
   (text_area_three_tries_error (fun _ : ℕ => (none : Option QR)) "up" 1 (le_refl 1)
     (fun _ => rfl)).1,
   (text_area_three_tries_error (fun _ : ℕ => (none : Option QR)) "up" 1 (le_refl 1)
     (fun _ => rfl)).2.2.1⟩

/-! Generic lexicographic comparison helpers used to model Python tuple-key
`list.sort` calls. -/

def lex2Le {γ α β : Type} [LinearOrder α] [LinearOrder β]
    (f : γ → α) (g : γ → β) (a b : γ) : Prop :=
  f a < f b ∨ (f a = f b ∧ g a ≤ g b)

def lex3Le {γ α β δ : Type} [LinearOrder α] [LinearOrder β] [LinearOrder δ]
    (f : γ → α) (g : γ → β) (h : γ → δ) (a b : γ) : Prop :=
  f a < f b ∨ (f a = f b ∧ (g a < g b ∨ (g a = g b ∧ h a ≤ h b)))

theorem lex2Le_total {γ α β : Type} [LinearOrder α] [LinearOrder β]
    (f : γ → α) (g : γ → β) (a b : γ) : lex2Le f g a b ∨ lex2Le f g b a := by
  rcases lt_trichotomy (f a) (f b) with hf | hf | hf
  · exact Or.inl (Or.inl hf)
  · rcases le_total (g a) (g b) with hg | hg
    · exact Or.inl (Or.inr ⟨hf, hg⟩)
    · exact Or.inr (Or.inr ⟨hf.symm, hg⟩)
  · exact Or.inr (Or.inl hf)

theorem lex2Le_trans {γ α β : Type} [LinearOrder α] [LinearOrder β]
    (f : γ → α) (g : γ → β) (a b c : γ)
    (hab : lex2Le f g a b) (hbc : lex2Le f g b c) : lex2Le f g a c := by
  rcases hab with h1 | ⟨e1, h1⟩
  · rcases hbc with h2 | ⟨e2, h2⟩
    · exact Or.inl (lt_trans h1 h2)
    · exact Or.inl (by rw [← e2]; exact h1)
  · rcases hbc with h2 | ⟨e2, h2⟩
    · exact Or.inl (by rw [e1]; exact h2)
    · exact Or.inr ⟨e1.trans e2, le_trans h1 h2⟩

theorem lex3Le_total {γ α β δ : Type} [LinearOrder α] [LinearOrder β] [LinearOrder δ]
    (f : γ → α) (g : γ → β) (h : γ → δ) (a b : γ) :
    lex3Le f g h a b ∨ lex3Le f g h b a := by
  rcases lt_trichotomy (f a) (f b) with hf | hf | hf
  · exact Or.inl (Or.inl hf)
  · rcases lt_trichotomy (g a) (g b) with hg | hg | hg
    · exact Or.inl (Or.inr ⟨hf, Or.inl hg⟩)
    · rcases le_total (h a) (h b) with hh | hh
      · exact Or.inl (Or.inr ⟨hf, Or.inr ⟨hg, hh⟩⟩)
      · exact Or.inr (Or.inr ⟨hf.symm, Or.inr ⟨hg.symm, hh⟩⟩)
    · exact Or.inr (Or.inr ⟨hf.symm, Or.inl hg⟩)
  · exact Or.inr (Or.inl hf)

theorem lex3Le_trans {γ α β δ : Type} [LinearOrder α] [LinearOrder β] [LinearOrder δ]
    (f : γ → α) (g : γ → β) (h : γ → δ) (a b c : γ)
    (hab : lex3Le f g h a b) (hbc : lex3Le f g h b c) : lex3Le f g h a c := by
  rcases hab with h1 | ⟨e1, h1⟩
  · rcases hbc with h2 | ⟨e2, h2⟩
    · exact Or.inl (lt_trans h1 h2)
    · exact Or.inl (by rw [← e2]; exact h1)
  · rcases hbc with h2 | ⟨e2, h2⟩
    · exact Or.inl (by rw [e1]; exact h2)
    · refine Or.inr ⟨e1.trans e2, ?_⟩
      rcases h1 with g1 | ⟨ge1, o1⟩
      · rcases h2 with g2 | ⟨ge2, o2⟩
        · exact Or.inl (lt_trans g1 g2)
        · exact Or.inl (by rw [← ge2]; exact g1)
      · rcases h2 with g2 | ⟨ge2, o2⟩
        · exact Or.inl (by rw [ge1]; exact g2)
        · exact Or.inr ⟨ge1.trans ge2, le_trans o1 o2⟩

/-! player.py: long-press scheduler (`_execute_key_long_press_items`,
lines 790-875). A `SItem` is one normalised `longPressTimeline` entry with its
timing specs already sampled (`_sample_delay_cfg` clamps both bounds of a
spec to be ≥ 0, so in the engine the sampled values are always nonnegative);
`buildPlan` is the `for idx, item in enumerate(items)` plan-building loop and
`rawEvents`/`sortedEvents` the event emission with the tuple sort key
`(time, item index, start-before-end)`. -/

inductive ActMode
  | fromStart
  | afterPrev
deriving DecidableEq, Repr

structure SItem where
  mode : ActMode
  startS : ℚ
  holdS : ℚ
deriving DecidableEq, Repr

structure PItem where
  idx : ℕ
  startT : ℚ
  endT : ℚ
  holdT : ℚ
deriving DecidableEq, Repr

def buildPlan : List SItem → ℕ → ℚ → List PItem
  | [], _, _ => []
  | it :: rest, idx, prevEnd =>
    let hold := max 0 it.holdS
    let start := match it.mode with
      | ActMode.fromStart => max 0 it.startS
      | ActMode.afterPrev => max 0 prevEnd
    ⟨idx, start, start + hold, hold⟩ :: buildPlan rest (idx + 1) (start + hold)

def longPressPlan (items : List SItem) : List PItem := buildPlan items 0 0

/-- One scheduled begin (`ord = 0`) or end (`ord = 1`) event. -/
structure LPEv where
  t : ℚ
  idx : ℕ
  ord : ℕ
deriving DecidableEq, Repr

/-- The unsorted event list: per plan item, its begin then its end event. -/
def rawEvents (plan : List PItem) : List LPEv :=
  plan.flatMap (fun p => [⟨p.startT, p.idx, 0⟩, ⟨p.endT, p.idx, 1⟩])

/-- The Python sort key `(e[0], e[1], e[2])`: time, then original list index,
then begin-before-end. -/
def evLe (a b : LPEv) : Prop := lex3Le LPEv.t LPEv.idx LPEv.ord a b

instance : DecidableRel evLe := fun a b => by unfold evLe lex3Le; infer_instance

instance : IsTotal LPEv evLe := ⟨fun a b => lex3Le_total LPEv.t LPEv.idx LPEv.ord a b⟩

instance : IsTrans LPEv evLe := ⟨fun a b c => lex3Le_trans LPEv.t LPEv.idx LPEv.ord a b c⟩

/-- `events.sort(key=lambda e: (e[0], e[1], e[2]))`. -/
def sortedEvents (plan : List PItem) : List LPEv := List.insertionSort evLe (rawEvents plan)

theorem buildPlan_get (l : List SItem) :
    ∀ (idx : ℕ) (prevEnd : ℚ) (i : ℕ) (it : SItem) (p : PItem),
      l.get? i = some it → (buildPlan l idx prevEnd).get? i = some p →
      p.holdT = max 0 it.holdS ∧ p.endT = p.startT + max 0 it.holdS ∧
      (it.mode = ActMode.fromStart → p.startT = max 0 it.startS) ∧
      (i = 0 → it.mode = ActMode.afterPrev → p.startT = max 0 prevEnd) := by
  induction l with
  | nil => intro idx prevEnd i it p h1 _; simp at h1
  | cons a rest ih =>
    intro idx prevEnd i it p h1 h2
    cases i with
    | zero =>
      simp only [List.get?_cons_zero, Option.some.injEq] at h1
      simp only [buildPlan, List.get?_cons_zero, Option.some.injEq] at h2
      subst h1
      cases hm : a.mode <;> rw [← h2] <;> simp [hm]
    | succ j =>
      simp only [List.get?_cons_succ] at h1
      simp only [buildPlan, List.get?_cons_succ] at h2
      exact (ih _ _ j it p h1 h2).imp id (fun x => x.imp id (fun y => y.imp id (fun z h _ => by omega)))

theorem buildPlan_nonneg (l : List SItem) :
    ∀ (idx : ℕ) (prevEnd : ℚ) (p : PItem), p ∈ buildPlan l idx prevEnd →
      0 ≤ p.startT ∧ 0 ≤ p.endT := by
  induction l with
  | nil => intro idx prevEnd p h; simp [buildPlan] at h
  | cons a rest ih =>
    intro idx prevEnd p h
    simp only [buildPlan, List.mem_cons] at h
    rcases h with rfl | h
    · cases hm : a.mode <;>
        constructor <;>
        simp [hm] <;>
        positivity
    · exact ih _ _ p h

theorem buildPlan_adjacent (l : List SItem) :
    ∀ (idx : ℕ) (prevEnd : ℚ) (j : ℕ) (it : SItem) (p q : PItem),
      l.get? (j + 1) = some it →
      (buildPlan l idx prevEnd).get? j = some p →
      (buildPlan l idx prevEnd).get? (j + 1) = some q →
      it.mode = ActMode.afterPrev → q.startT = max 0 p.endT := by
  induction l with
  | nil => intro idx prevEnd j it p q h1 _ _ _; simp at h1
  | cons a rest ih =>
    intro idx prevEnd j it p q h1 h2 h3 hm
    cases j with
    | zero =>
      cases rest with
      | nil => simp at h1
      | cons b rest2 =>
        simp only [List.get?_cons_succ, List.get?_cons_zero, Option.some.injEq] at h1
        simp only [buildPlan, List.get?_cons_succ, List.get?_cons_zero, Option.some.injEq] at h2 h3
        subst h1
        subst h2
        simp only [hm] at h3
        subst h3
        rfl
    | succ j2 =>
      simp only [List.get?_cons_succ] at h1
      simp only [buildPlan, List.get?_cons_succ] at h2 h3
      exact ih _ _ j2 it p q h1 h2 h3 hm

/-- C2: given the sampled durations (all nonnegative, as `_sample_delay_cfg`
guarantees), the plan gives each item end time = start time + sampled hold,
start time = its sampled start offset for `from_start` items, start time 0 for
a leading `after_prev` item and the previous item's end time for any later
`after_prev` item; and the emitted event list is the sorted-by-key
(time, original list index, begin-before-end) permutation of the raw
begin/end events — a deterministic function of the sampled plan. -/
theorem long_press_plan_and_order (items : List SItem)
    (hpos : ∀ it ∈ items, 0 ≤ it.startS ∧ 0 ≤ it.holdS) :
    (∀ (i : ℕ) (it : SItem) (p : PItem),
        items.get? i = some it → (longPressPlan items).get? i = some p →
        p.endT = p.startT + it.holdS ∧
        (it.mode = ActMode.fromStart → p.startT = it.startS) ∧
        (i = 0 → it.mode = ActMode.afterPrev → p.startT = 0) ∧
        (∀ (j : ℕ) (q : PItem), i = j + 1 → it.mode = ActMode.afterPrev →
          (longPressPlan items).get? j = some q → p.startT = q.endT)) ∧
    List.Sorted evLe (sortedEvents (longPressPlan items)) ∧
    (sortedEvents (longPressPlan items)).Perm (rawEvents (longPressPlan items)) := by
  refine ⟨?_, List.sorted_insertionSort evLe _, List.perm_insertionSort evLe _⟩
  intro i it p h1 h2
  have hmem : it ∈ items := List.get?_mem h1
  have hhold : max 0 it.holdS = it.holdS := max_eq_right (hpos it hmem).2
  have hstart : max 0 it.startS = it.startS := max_eq_right (hpos it hmem).1
  obtain ⟨hT, hE, hF, hA⟩ := buildPlan_get items 0 0 i it p h1 h2
  refine ⟨by rw [hE, hhold], fun hm => by rw [hF hm, hstart], ?_, ?_⟩
  · intro hi hm
    rw [hA hi hm]
    simp
  · intro j q hij hm hq
    have hadj := buildPlan_adjacent items 0 0 j it q p (hij ▸ h1) hq (hij ▸ h2) hm
    rw [hadj, max_eq_right (buildPlan_nonneg items 0 0 q (List.get?_mem hq)).2]

/-- C2 witness: the two items from the spec scenario — item 0 holds 0.2 s
after the previous item, item 1 holds 0.1 s starting 0.05 s from the start. -/
theorem long_press_plan_and_order_witness :
    (∀ it ∈ [SItem.mk ActMode.afterPrev 0 (1/5), SItem.mk ActMode.fromStart (1/20) (1/10)],
        0 ≤ it.startS ∧ 0 ≤ it.holdS) ∧
    List.Sorted evLe (sortedEvents (longPressPlan
      [SItem.mk ActMode.afterPrev 0 (1/5), SItem.mk ActMode.fromStart (1/20) (1/10)])) :=
  ⟨by norm_num,
   (long_press_plan_and_order
      [SItem.mk ActMode.afterPrev 0 (1/5), SItem.mk ActMode.fromStart (1/20) (1/10)]
      (by norm_num)).2.1⟩

/-! player.py: the event loop of `_execute_key_long_press_items`
(lines 838-875) with its `try ... finally` release of still-active holds.
For each event the loop first passes a block of checkpoints (stop event,
restart flag, pause gate, the chunked sleep to the event's wall-clock
target — all of which abort the loop body before the event's press/release
is performed); aborts of any kind, including an exception, are modelled by
the `abort` schedule, indexed by the event number. A `start` event stores a
pressed-hold handle in `active_holds[idx]`, an `end` event pops and releases
it; the `finally` block releases every handle still in `active_holds`, in
descending key order. -/

/-- The loop over sorted events: returns (still-active holds, pressed
indices, released indices). -/
def lpExecEvents : List LPEv → (ℕ → Bool) → ℕ → List ℕ → List ℕ × List ℕ × List ℕ
  | [], _, _, act => (act, [], [])
  | e :: rest, abort, k, act =>
    if abort k then (act, [], [])
    else if e.ord = 0 then
      let act2 := if e.idx ∈ act then act else e.idx :: act
      let r := lpExecEvents rest abort (k + 1) act2
      (r.1, e.idx :: r.2.1, r.2.2)
    else
      let hadHold := e.idx ∈ act
      let act2 := act.erase e.idx
      let r := lpExecEvents rest abort (k + 1) act2
      (r.1, r.2.1, if hadHold then e.idx :: r.2.2 else r.2.2)

/-- The whole long-press execution: the event loop followed by the `finally`
block, which releases the remaining `active_holds` keys in reverse sorted
order. Returns (pressed indices, released indices). -/
def lpRunHolds (items : List SItem) (abort : ℕ → Bool) : List ℕ × List ℕ :=
  let evs := sortedEvents (longPressPlan items)
  let r := lpExecEvents evs abort 0 []
  (r.2.1, r.2.2 ++ (List.insertionSort (fun a b : ℕ => a ≤ b) r.1).reverse)

theorem lpExecEvents_subset (evs : List LPEv) :
    ∀ (abort : ℕ → Bool) (k : ℕ) (act : List ℕ),
      (∀ x ∈ act,
        x ∈ (lpExecEvents evs abort k act).1 ∨ x ∈ (lpExecEvents evs abort k act).2.2) ∧
      (∀ x ∈ (lpExecEvents evs abort k act).2.1,
        x ∈ (lpExecEvents evs abort k act).1 ∨ x ∈ (lpExecEvents evs abort k act).2.2) := by
  induction evs with
  | nil =>
    intro abort k act
    exact ⟨fun x hx => Or.inl hx, fun x hx => by simp [lpExecEvents] at hx⟩
  | cons e rest ih =>
    intro abort k act
    by_cases ha : abort k
    · refine ⟨fun x hx => ?_, fun x hx => ?_⟩
      · simp only [lpExecEvents, if_pos ha]
        exact Or.inl hx
      · simp [lpExecEvents, if_pos ha] at hx
    · by_cases hs : e.ord = 0
      · simp only [lpExecEvents, if_neg ha, if_pos hs]
        obtain ⟨ih1, ih2⟩ := ih abort (k + 1) (if e.idx ∈ act then act else e.idx :: act)
        refine ⟨fun x hx => ?_, fun x hx => ?_⟩
        · apply ih1
          by_cases hin : e.idx ∈ act <;> simp [hin, hx]
        · rcases List.mem_cons.mp hx with rfl | hx
          · apply ih1
            by_cases hin : e.idx ∈ act <;> simp [hin]
          · exact ih2 x hx
      · simp only [lpExecEvents, if_neg ha, if_neg hs]
        obtain ⟨ih1, ih2⟩ := ih abort (k + 1) (act.erase e.idx)
        refine ⟨fun x hx => ?_, fun x hx => ?_⟩
        · by_cases hxe : x = e.idx
          · subst hxe
            right
            simp [if_pos hx]
          · rcases ih1 x (List.mem_erase_of_ne hxe |>.mpr hx) with h | h
            · exact Or.inl h
            · right
              by_cases hin : e.idx ∈ act <;> simp [hin, h]
        · rcases ih2 x hx with h | h
          · exact Or.inl h
          · right
            by_cases hin : e.idx ∈ act <;> simp [hin, h]

/-- C3: on every exit path of the long-press executor — normal completion or
an abort (stop, restart-from-beginning, pause-abort or an exception) at any
checkpoint — every index whose trigger was pressed is released, either by its
own end event or by the `finally` block that releases all still-active
holds. -/
theorem long_press_releases_all (items : List SItem) (abort : ℕ → Bool) :
    ∀ i ∈ (lpRunHolds items abort).1, i ∈ (lpRunHolds items abort).2 := by
  intro i hi
  obtain h := lpExecEvents_subset (sortedEvents (longPressPlan items)) abort 0 []
  rcases h.2 i hi with h1 | h2
  · apply List.mem_append.mpr
    right
    rw [List.mem_reverse, (List.perm_insertionSort (fun a b : ℕ => a ≤ b) _).mem_iff]
    exact h1
  · exact List.mem_append.mpr (Or.inl h2)

/-- C3 witness: one item held for 1 s, no aborts — its trigger (index 0) is
pressed and then released. -/
theorem long_press_releases_all_witness :
    0 ∈ (lpRunHolds [SItem.mk ActMode.afterPrev 0 1] (fun _ => false)).1 ∧
    0 ∈ (lpRunHolds [SItem.mk ActMode.afterPrev 0 1] (fun _ => false)).2 :=
  ⟨by norm_num [lpRunHolds, sortedEvents, longPressPlan, buildPlan, rawEvents, lpExecEvents,
      List.insertionSort, List.orderedInsert, evLe, lex3Le],
   long_press_releases_all [SItem.mk ActMode.afterPrev 0 1] (fun _ => false) 0
     (by norm_num [lpRunHolds, sortedEvents, longPressPlan, buildPlan, rawEvents, lpExecEvents,
        List.insertionSort, List.orderedInsert, evLe, lex3Le])⟩

/-! models.py: OCR language normalisation (`_split_ocr_lang_spec`,
`normalize_ocr_lang_spec`). -/

/-- Python `str.lower()` (ASCII case mapping suffices for language codes). -/
def strLower (s : String) : String := String.mk (s.data.map Char.toLower)

/-- Strip leading and trailing whitespace from a character list. -/
def trimChars (l : List Char) : List Char :=
  ((l.dropWhile Char.isWhitespace).reverse.dropWhile Char.isWhitespace).reverse

/-- Python `str.strip()`. -/
def strStrip (s : String) : String := String.mk (trimChars s.data)

/-- Split a character list at every separator character (adjacent separators
yield empty pieces, which the callers filter out — the same outcome as the
`re.split` on separator runs in the source). -/
def splitCharsAux (p : Char → Bool) : List Char → List Char → List (List Char)
  | [], cur => [cur.reverse]
  | c :: rest, cur =>
    if p c then cur.reverse :: splitCharsAux p rest []
    else splitCharsAux p rest (c :: cur)

def strSplitOn (p : Char → Bool) (s : String) : List String :=
  (splitCharsAux p s.data []).map String.mk

/-- models.py `_OCR_LANG_ALIASES` lookup with default. -/
def ocrAlias (s : String) : String :=
  if s = "ru" ∨ s = "rus" ∨ s = "russian" then "rus"
  else if s = "en" ∨ s = "eng" ∨ s = "english" then "eng"
  else s

/-- The separator class of the `re.split` pattern in `_split_ocr_lang_spec`. -/
def isLangSep (c : Char) : Bool :=
  c = '+' || c = ',' || c = ';' || c = '|' || c.isWhitespace

/-- models.py `_split_ocr_lang_spec`. -/
def splitOcrLangSpec (lang : String) : List String :=
  let raw := strLower (strStrip lang)
  if raw = "" then []
  else
    (strSplitOn isLangSep raw).foldl
      (fun acc part =>
        let code := strLower (strStrip (ocrAlias part))
        if code = "" then acc
        else if code ∈ acc then acc
        else acc ++ [code]) []

/-- models.py `normalize_ocr_lang_spec(lang, available)`. -/
def normalizeOcrLangSpec (lang : String) (available : List String) : String :=
  let requested := splitOcrLangSpec lang
  let availKeys := (available.map (fun s => strLower (strStrip s))).filter
    (fun s => decide (s ≠ ""))
  let selected := requested.foldl
    (fun acc code =>
      if availKeys.isEmpty then (if code ∈ acc then acc else acc ++ [code])
      else if code ∈ availKeys ∧ code ∉ acc then acc ++ [code]
      else acc) []
  let chosen := if selected.isEmpty then
      (if availKeys.isEmpty then ["rus"]
       else if "rus" ∈ availKeys then ["rus"] else [availKeys.headD "rus"])
    else selected
  String.intercalate "+" chosen

theorem normalize_empty_eq_rus (available : List String) :
    normalizeOcrLangSpec "" available = normalizeOcrLangSpec "rus" available := by
  have h1 : splitOcrLangSpec "" = [] := by decide
  have h2 : splitOcrLangSpec "rus" = ["rus"] := by decide
  unfold normalizeOcrLangSpec
  rw [h1, h2]
  set K := (available.map (fun s => strLower (strStrip s))).filter (fun s => decide (s ≠ ""))
    with hK
  simp only [List.foldl_cons, List.foldl_nil]
  by_cases hA : K.isEmpty
  · simp [hA]
  · by_cases hR : "rus" ∈ K
    · simp [hA, hR]
    · simp [hA, hR]

/-! models.py: candidate selection of `WordAreaAction.resolve_target_rect_global`
(lines 743-792). A match is a coordinate-mapped candidate tuple
`(gy1, gx1, gx2, gy2, score)`; the per-`psm` OCR pass that produced it is
abstracted (the locator internals are out of the core's scope). -/

structure OcrMatch where
  y1 : ℤ
  x1 : ℤ
  x2 : ℤ
  y2 : ℤ
  score : ℚ
deriving DecidableEq, Repr

/-- The sort key `(-score, y1, x1)` of `matches.sort` (line 777). -/
def scoreLe (a b : OcrMatch) : Prop :=
  lex3Le (fun m : OcrMatch => -m.score) OcrMatch.y1 OcrMatch.x1 a b

/-- The reading-order sort key `(y1, x1)` of `best_matches.sort` (line 785):
top-to-bottom, then left-to-right. -/
def readingLe (a b : OcrMatch) : Prop := lex2Le OcrMatch.y1 OcrMatch.x1 a b

instance : DecidableRel scoreLe := fun a b => by unfold scoreLe lex3Le; infer_instance

instance : IsTotal OcrMatch scoreLe :=
  ⟨fun a b => lex3Le_total (fun m : OcrMatch => -m.score) OcrMatch.y1 OcrMatch.x1 a b⟩

instance : IsTrans OcrMatch scoreLe :=
  ⟨fun a b c => lex3Le_trans (fun m : OcrMatch => -m.score) OcrMatch.y1 OcrMatch.x1 a b c⟩

instance : DecidableRel readingLe := fun a b => by unfold readingLe lex2Le; infer_instance

instance : IsTotal OcrMatch readingLe :=
  ⟨fun a b => lex2Le_total OcrMatch.y1 OcrMatch.x1 a b⟩

instance : IsTrans OcrMatch readingLe :=
  ⟨fun a b c => lex2Le_trans OcrMatch.y1 OcrMatch.x1 a b c⟩

def scoreSort (ms : List OcrMatch) : List OcrMatch := List.insertionSort scoreLe ms

def readingSort (ms : List OcrMatch) : List OcrMatch := List.insertionSort readingLe ms

/-- Outcome of one `pytesseract.image_to_data` pass for one `psm` value:
Tesseract missing (`return None`), any other OCR failure (`continue`), or the
mapped match list. -/
inductive PsmOutcome
  | tessMissing
  | ocrFailed
  | ok (ms : List OcrMatch)
deriving DecidableEq, Repr

/-- The `for psm in psm_list` loop of lines 556-779 reduced to its control
flow over the per-psm outcomes: empty match lists continue to the next psm; a
nonempty list with `expected_count > 0` and fewer matches than expected also
continues (line 769); otherwise the matches, sorted by `(-score, y1, x1)`,
become `best_matches` and the loop breaks. -/
def selectPsm : List PsmOutcome → ℕ → Option (List OcrMatch)
  | [], _ => none
  | PsmOutcome.tessMissing :: _, _ => none
  | PsmOutcome.ocrFailed :: rest, expected => selectPsm rest expected
  | PsmOutcome.ok ms :: rest, expected =>
    if ms.isEmpty then selectPsm rest expected
    else if 0 < expected ∧ ms.length < expected then selectPsm rest expected
    else some (scoreSort ms)

/-- Lines 781-792: re-sort `best_matches` in reading order, clamp
`occurrenceIndex - 1` to the last match, return that match's rectangle. -/
def finalizeSelect (best : List OcrMatch) (index : ℤ) : Option QR :=
  if best.isEmpty then none
  else
    let s := readingSort best
    let idx0 := (max 0 (index - 1)).toNat
    let idx1 := if s.length ≤ idx0 then s.length - 1 else idx0
    match s.get? idx1 with
    | some m => some ((QR.mk m.x1 m.y1 m.x2 m.y2).normalized)
    | none => none

/-- C7: (1) if `expectedCount > 0` and every psm pass produced fewer matches
than expected, the whole resolution attempt yields nothing even though some
matches exist; (2) otherwise the attempt keeps the (score-sorted) matches,
and the final selection re-sorts them in reading order (top-to-bottom then
left-to-right; the sorted list is a permutation of the matches) and returns
the rectangle of the `occurrenceIndex`-th entry, with the index clamped to
the last match when out of range. -/
theorem word_area_select_spec :
    (∀ (outs : List PsmOutcome) (expected : ℕ),
        0 < expected →
        (∀ ms, PsmOutcome.ok ms ∈ outs → ms.length < expected) →
        selectPsm outs expected = none) ∧
    (∀ (ms : List OcrMatch) (expected : ℕ) (index : ℤ),
        ms ≠ [] → ¬(0 < expected ∧ ms.length < expected) →
        selectPsm [PsmOutcome.ok ms] expected = some (scoreSort ms) ∧
        ∃ s m,
          s.Perm ms ∧ List.Sorted readingLe s ∧
          s.get? (if s.length ≤ (max 0 (index - 1)).toNat then s.length - 1
                  else (max 0 (index - 1)).toNat) = some m ∧
          finalizeSelect (scoreSort ms) index
            = some ((QR.mk m.x1 m.y1 m.x2 m.y2).normalized)) := by
  constructor
  · intro outs
    induction outs with
    | nil => intro expected _ _; rfl
    | cons o rest ih =>
      intro expected hexp hlt
      cases o with
      | tessMissing => rfl
      | ocrFailed =>
        exact ih expected hexp (fun ms hms => hlt ms (List.mem_cons_of_mem _ hms))
      | ok ms =>
        by_cases hms : ms.isEmpty
        · simp only [selectPsm, if_pos hms]
          exact ih expected hexp (fun m hm => hlt m (List.mem_cons_of_mem _ hm))
        · have hcond : 0 < expected ∧ ms.length < expected :=
            ⟨hexp, hlt ms (List.mem_cons_self _ _)⟩
          simp only [selectPsm, if_neg hms, if_pos hcond]
          exact ih expected hexp (fun m hm => hlt m (List.mem_cons_of_mem _ hm))
  · intro ms expected index hne hcond
    have hms : ¬ms.isEmpty := by simp [List.isEmpty_iff, hne]
    have hsel : selectPsm [PsmOutcome.ok ms] expected = some (scoreSort ms) := by
      simp only [selectPsm, if_neg hms, if_neg hcond]
    refine ⟨hsel, ?_⟩
    have hperm : (readingSort (scoreSort ms)).Perm ms :=
      (List.perm_insertionSort readingLe (scoreSort ms)).trans
        (List.perm_insertionSort scoreLe ms)
    have hlen : (readingSort (scoreSort ms)).length = ms.length := hperm.length_eq
    have hpos : 0 < (readingSort (scoreSort ms)).length := by
      rw [hlen]
      exact List.length_pos.mpr hne
    have hidx : (if (readingSort (scoreSort ms)).length ≤ (max 0 (index - 1)).toNat
        then (readingSort (scoreSort ms)).length - 1
        else (max 0 (index - 1)).toNat) < (readingSort (scoreSort ms)).length := by
      split <;> omega
    refine ⟨readingSort (scoreSort ms), (readingSort (scoreSort ms)).get ⟨_, hidx⟩,
      hperm, List.sorted_insertionSort readingLe (scoreSort ms),
      List.get?_eq_get hidx, ?_⟩
    have hbe : ¬(scoreSort ms).isEmpty := by
      have : (scoreSort ms).length = ms.length :=
        (List.perm_insertionSort scoreLe ms).length_eq
      simp only [List.isEmpty_iff, ← List.length_eq_zero]
      omega
    simp only [finalizeSelect, if_neg hbe]
    rw [List.get?_eq_get hidx]

/-- C7 witness: part (1) at a single psm pass with one match but
`expectedCount = 2`; part (2) at a single match with `expectedCount = 0`. -/
theorem word_area_select_spec_witness :
    selectPsm [PsmOutcome.ok [OcrMatch.mk 0 0 5 5 1]] 2 = none ∧
    (∃ s m,
      s.Perm [OcrMatch.mk 0 0 5 5 1] ∧ List.Sorted readingLe s ∧
      s.get? (if s.length ≤ (max 0 ((1 : ℤ) - 1)).toNat then s.length - 1
              else (max 0 ((1 : ℤ) - 1)).toNat) = some m ∧
      finalizeSelect (scoreSort [OcrMatch.mk 0 0 5 5 1]) 1
        = some ((QR.mk m.x1 m.y1 m.x2 m.y2).normalized)) :=
  ⟨word_area_select_spec.1 [PsmOutcome.ok [OcrMatch.mk 0 0 5 5 1]] 2 (by norm_num)
    (by intro ms hms; simp at hms; subst hms; norm_num),
   (word_area_select_spec.2 [OcrMatch.mk 0 0 5 5 1] 0 1 (by simp) (by norm_num)).2⟩

/-! models.py: `WordAreaAction.resolve_target_rect_global` (lines 396-792)
and `WaitEventAction.resolve_target_rect_global` (lines 975-1010).

The action structures below carry exactly the fields that
`resolve_target_rect_global` reads (the remaining fields — click, multiplier,
delay, button, trigger, the search/on-fail policy — never enter resolution).
Everything that happens between the screen grab and the mapped candidate
tuples (Pillow preprocessing, Tesseract, `_norm`, which is Unicode
NFKC + casefold + a regex and therefore depends on the Unicode tables, and
the token-joining/threshold scoring) is abstracted as the oracle `OcrEnv`,
keyed by everything the source passes into that stage: the normalised
language, the physical-pixel bounding box, the normalised target text and
the psm value. Both resolvers consult the same oracle, which is what claim
C10 is about. -/

inductive CoordMode
  | abs
  | rel
deriving DecidableEq, Repr

structure WordAreaA where
  x1 : ℤ
  y1 : ℤ
  x2 : ℤ
  y2 : ℤ
  word : String
  index : ℤ
  count : ℤ
  coord : CoordMode
  rx1 : ℚ
  ry1 : ℚ
  rx2 : ℚ
  ry2 : ℚ
  ocr_lang : String
deriving DecidableEq, Repr

structure WaitEventA where
  x1 : ℤ
  y1 : ℤ
  x2 : ℤ
  y2 : ℤ
  coord : CoordMode
  rx1 : ℚ
  ry1 : ℚ
  rx2 : ℚ
  ry2 : ℚ
  expected_text : String
  ocr_lang : String
  poll : ℚ
deriving DecidableEq, Repr

/-- models.py `WordAreaAction.search_rect_global(base)`. -/
def searchRectGlobal (a : WordAreaA) (base : Option QR) : QR :=
  match base with
  | some b =>
    if a.coord = CoordMode.rel ∧ b.isValidB = true ∧ 2 ≤ b.width ∧ 2 ≤ b.height then
      rel_to_rect b a.rx1 a.ry1 a.rx2 a.ry2
    else (QR.mk a.x1 a.y1 a.x2 a.y2).normalized
  | none => (QR.mk a.x1 a.y1 a.x2 a.y2).normalized

/-- The OCR oracle: everything `resolve_target_rect_global` consumes from the
outside world. -/
structure OcrEnv where
  available : List String
  importsOk : Bool
  screenDpr : QR → ℚ
  grabOk : ℤ × ℤ × ℤ × ℤ → Bool
  prepOk : Bool
  norm : String → String
  psm : String → ℤ × ℤ × ℤ × ℤ → String → ℕ → PsmOutcome

/-- models.py `WordAreaAction.resolve_target_rect_global`, with the OCR stage
factored through `OcrEnv` and the selection stage through
`selectPsm`/`finalizeSelect`. The checks appear in source order: search-rect
size, empty word, installed languages, imports, HiDPI scale, screen grab,
preprocessing, empty normalised target, then the psm loop. -/
def resolve_target_rect_global (a : WordAreaA) (base : Option QR) (debug : Bool)
    (dprOverride : Option ℚ) (env : OcrEnv) : Option QR :=
  let rect := searchRectGlobal a base
  if rect.isValidB = false ∨ rect.width < 5 ∨ rect.height < 5 then none
  else
    let wraw := strStrip a.word
    if wraw = "" then none
    else if env.available.isEmpty then none
    else
      let lang := normalizeOcrLangSpec a.ocr_lang env.available
      if env.importsOk = false then none
      else
        let dpr := match dprOverride with
          | some d => if d ≤ 0 then 1 else d
          | none => env.screenDpr rect
        let bbox := (pyRound ((rect.x1 : ℚ) * dpr), pyRound ((rect.y1 : ℚ) * dpr),
                     pyRound (((rect.x2 : ℚ) + 1) * dpr), pyRound (((rect.y2 : ℚ) + 1) * dpr))
        if env.grabOk bbox = false then none
        else if env.prepOk = false then none
        else
          let targetNorm := env.norm wraw
          if targetNorm = "" then none
          else
            let expected := a.count.toNat
            match selectPsm ([6, 7, 11].map (fun p => env.psm lang bbox targetNorm p))
                expected with
            | none => none
            | some best => finalizeSelect best a.index

/-- models.py lines 982-1004: the probe `WordAreaAction` that
`WaitEventAction.resolve_target_rect_global` builds — same rectangle fields
and coordinate mode, `word = str(expected_text or "")`, `index = 1`,
`count = 0`, `ocr_lang = str(ocr_lang or "rus")`. -/
def WaitEventA.probe (a : WaitEventA) : WordAreaA :=
  WordAreaA.mk a.x1 a.y1 a.x2 a.y2 a.expected_text 1 0 a.coord a.rx1 a.ry1 a.rx2 a.ry2
    (if a.ocr_lang = "" then "rus" else a.ocr_lang)

/-- models.py `WaitEventAction.resolve_target_rect_global`: delegates to the
probe. -/
def waitEventResolveTargetRectGlobal (a : WaitEventA) (base : Option QR) (debug : Bool)
    (dprOverride : Option ℚ) (env : OcrEnv) : Option QR :=
  resolve_target_rect_global a.probe base debug dprOverride env

/-- C10: for every base rectangle, debug flag, scale override and OCR
environment, resolving a wait-for-text action's target rectangle returns
exactly the same result as resolving the `TextArea` probe built from it with
`word = expected_text`, occurrence index 1, expected count 0, and the same
coordinate mode, rectangle fields and OCR language (even when the stored OCR
language is the empty string, which the probe replaces by `"rus"` — language
normalisation maps both to the same effective language). -/
theorem wait_event_is_word_area_probe (a : WaitEventA) (base : Option QR) (debug : Bool)
    (dprOverride : Option ℚ) (env : OcrEnv) :
    waitEventResolveTargetRectGlobal a base debug dprOverride env
      = resolve_target_rect_global
          (WordAreaA.mk a.x1 a.y1 a.x2 a.y2 a.expected_text 1 0 a.coord
            a.rx1 a.ry1 a.rx2 a.ry2 a.ocr_lang)
          base debug dprOverride env := by
  unfold waitEventResolveTargetRectGlobal WaitEventA.probe
  by_cases h : a.ocr_lang = ""
  · simp only [h, if_true]
    simp only [resolve_target_rect_global, searchRectGlobal,
      normalize_empty_eq_rus env.available]
  · simp only [if_neg h]

/-! player.py: the `BaseArea` branch of `MacroPlayer.run` (lines 1170-1198)
and the helper `_maybe_update_base` (lines 226-237). The window locator
(`_resolve_runtime_base`) is abstracted as `Option (rect, scale)`; for an
unbound record it always yields `none`. -/

/-- player.py error message of the `BaseArea` branch when a bound window is
not resolvable. -/
def baseErrMsg : String := "База: процесс/окно не найдено — остановка чтобы не кликать по экрану."

structure BaseA where
  x1 : ℤ
  y1 : ℤ
  x2 : ℤ
  y2 : ℤ
  click : Bool
deriving DecidableEq, Repr

/-- models.py `BaseAreaAction.rect()`. -/
def BaseA.rect (a : BaseA) : QR := (QR.mk a.x1 a.y1 a.x2 a.y2).normalized

structure BAState where
  lastBase : Option QR
  currentArea : Option QR
  baseArea : QR
  dpr : ℚ
  ends : EngineEnd
  stopFlag : Bool
deriving DecidableEq, Repr

/-- Project a tracked rectangle from an old base onto a new base through the
coordinate mapper (forward to relative, back to absolute). -/
def reproject (newBase oldBase cur : QR) : QR :=
  rel_to_rect newBase (rect_to_rel oldBase cur).1 (rect_to_rel oldBase cur).2.1
    (rect_to_rel oldBase cur).2.2.1 (rect_to_rel oldBase cur).2.2.2

/-- player.py `_maybe_update_base` (lines 226-237): when the locator resolves
a valid rectangle that differs from the last base in position or size, the
tracked region is re-projected onto it; returns the new
(last base, tracked region). This helper is defined in `run` but never
called. -/
def maybe_update_base (lastBase currentArea : Option QR) (locator : Option (QR × ℚ)) :
    Option QR × Option QR :=
  match locator with
  | some (nb, _) =>
    if nb.isValidB then
      match lastBase, currentArea with
      | some lb, some cur =>
        if lb.isValidB ∧ cur.isValidB ∧
            (nb.x1 ≠ lb.x1 ∨ nb.y1 ≠ lb.y1 ∨ nb.width ≠ lb.width ∨ nb.height ≠ lb.height) then
          (some nb, some (reproject nb lb cur))
        else (some nb, currentArea)
      | _, _ => (some nb, currentArea)
    else (lastBase, currentArea)
  | none => (lastBase, currentArea)

/-- The `BaseArea` branch of `MacroPlayer.run` (lines 1170-1198): re-resolve
the live base via the locator; for a bound record with no valid window, mark
the terminal error and stop; otherwise install the resolved rectangle (or,
unbound, the action's own rectangle) as both the base and the tracked
region. -/
def baseAreaStep (bound : Bool) (locator : Option (QR × ℚ)) (a : BaseA) (st : BAState) :
    BAState :=
  let rt := if bound then locator else none
  match rt with
  | some (nb, d) =>
    if nb.isValidB then
      { st with baseArea := nb, dpr := d, currentArea := some nb }
    else
      if bound then
        { st with ends := mark_end st.ends "error" baseErrMsg, stopFlag := true }
      else
        { st with baseArea := a.rect, dpr := 1, currentArea := some a.rect }
  | none =>
    if bound then
      { st with ends := mark_end st.ends "error" baseErrMsg, stopFlag := true }
    else
      { st with baseArea := a.rect, dpr := 1, currentArea := some a.rect }

/-- C8 counterexample: a bound record whose window grew from 100×100 to
200×200 while the tracked region was `(10,10)-(19,19)`. The engine's
`BaseArea` branch sets the tracked region to the whole new base rectangle,
which differs from the coordinate-mapper re-projection of the old tracked
region (computed by the in-file embedding of the never-called
`_maybe_update_base`): the claimed re-projection does not happen. -/
theorem base_area_no_reprojection_counterexample :
    (baseAreaStep true (some (QR.mk 0 0 199 199, 1)) (BaseA.mk 0 0 100 100 false)
        (BAState.mk (some (QR.mk 0 0 99 99)) (some (QR.mk 10 10 19 19)) (QR.mk 0 0 99 99) 1
          initEnd false)).currentArea = some (QR.mk 0 0 199 199) ∧
    (maybe_update_base (some (QR.mk 0 0 99 99)) (some (QR.mk 10 10 19 19))
        (some (QR.mk 0 0 199 199, 1))).2 = some (QR.mk 20 20 38 38) ∧
    (QR.mk 20 20 38 38) ≠ QR.mk 0 0 199 199 := by
  refine ⟨by norm_num [baseAreaStep, QR.isValidB], ?_, by decide⟩
  norm_num [maybe_update_base, QR.isValidB, QR.width, QR.height, reproject, rect_to_rel,
    rel_to_rect, clamp01, pyRound, QR.normalized]

/-- C8 amended: each time a `BaseArea` action is encountered in a bound
record, the engine re-resolves the live base rectangle from the window
locator and installs it directly as both the base and the currently-tracked
region (no re-projection of the previously tracked region takes place — the
re-projection helper `_maybe_update_base` exists in `run` but is never
invoked); if the locator resolves no window, the run records the terminal
error state and stops. -/
theorem base_area_step_amended (locator : Option (QR × ℚ)) (a : BaseA) (st : BAState) :
    (∀ nb d, locator = some (nb, d) → nb.isValidB = true →
        (baseAreaStep true locator a st).baseArea = nb ∧
        (baseAreaStep true locator a st).currentArea = some nb ∧
        (baseAreaStep true locator a st).dpr = d) ∧
    (locator = none →
        (baseAreaStep true locator a st).ends = mark_end st.ends "error" baseErrMsg ∧
        (baseAreaStep true locator a st).stopFlag = true) := by
  constructor
  · intro nb d hloc hval
    subst hloc
    simp [baseAreaStep, hval]
  · intro hloc
    subst hloc
    simp [baseAreaStep]

/-- C8 witness: a valid 200×200 window resolved by the locator is installed
as the new base and tracked region. -/
theorem base_area_step_amended_witness :
    (some (QR.mk 0 0 199 199, (1 : ℚ)) = some (QR.mk 0 0 199 199, (1 : ℚ)) ∧
      (QR.mk 0 0 199 199).isValidB = true) ∧
    (baseAreaStep true (some (QR.mk 0 0 199 199, 1)) (BaseA.mk 0 0 100 100 false)
        (BAState.mk none none (QR.mk 0 0 99 99) 1 initEnd false)).baseArea
      = QR.mk 0 0 199 199 :=
  ⟨⟨rfl, by decide⟩,
   ((base_area_step_amended (some (QR.mk 0 0 199 199, 1)) (BaseA.mk 0 0 100 100 false)
      (BAState.mk none none (QR.mk 0 0 99 99) 1 initEnd false)).1
      (QR.mk 0 0 199 199) 1 rfl (by decide)).1⟩

/-! player.py: progress accounting of `MacroPlayer.run` for a record of
`BaseArea` / `Area` / `Wait` actions with repeat disabled
(`_estimate_action_progress_item` lines 357-371, the `AreaAction` branch
lines 1342-1354, the `WaitAction` branch lines 1401-1407): only `Wait`
contributes a progress step and a `(done, total)` emission; `Area` and
`BaseArea` contribute neither. The record is unbound, so the `BaseArea`
branch installs the action's own rectangle, and the initial base is the
virtual desktop geometry `vg`. -/

structure AreaA where
  x1 : ℤ
  y1 : ℤ
  x2 : ℤ
  y2 : ℤ
  coord : CoordMode
  rx1 : ℚ
  ry1 : ℚ
  rx2 : ℚ
  ry2 : ℚ
  click : Bool
deriving DecidableEq, Repr

/-- models.py `AreaAction.rect_global(base)`. -/
def AreaA.rect_global (a : AreaA) (base : QR) : QR :=
  if a.coord = CoordMode.rel ∧ base.isValidB = true ∧ 2 ≤ base.width ∧ 2 ≤ base.height then
    rel_to_rect base a.rx1 a.ry1 a.rx2 a.ry2
  else (QR.mk a.x1 a.y1 a.x2 a.y2).normalized

inductive SAct
  | base (a : BaseA)
  | area (a : AreaA)
  | wait (d : ℚ)
deriving DecidableEq, Repr

/-- player.py `_estimate_action_progress_item` restricted to the action kinds
of this record: `Wait` counts 1, `BaseArea` and `Area` count 0 (in the source
only `KeyAction`, `WaitAction` and `WaitEventAction` count). -/
def estimateProgressItem (a : SAct) : ℕ :=
  match a with
  | SAct.wait _ => 1
  | _ => 0

structure MiniState where
  baseArea : QR
  currentArea : QR
  done : ℕ
  total : ℕ
  progress : List (ℕ × ℕ)
  ends : EngineEnd
deriving DecidableEq, Repr

/-- One action dispatch of the main loop (unbound record, no stop or pause
requests — the scenario of the claim): `BaseArea` installs its rectangle as
base and tracked region (and possibly clicks); `Area` resolves its rectangle
as the tracked region (and possibly clicks); `Wait` sleeps and then emits one
`(done, total)` progress increment. -/
def miniStep (st : MiniState) (a : SAct) : MiniState :=
  match a with
  | SAct.base b => { st with baseArea := b.rect, currentArea := b.rect }
  | SAct.area ar => { st with currentArea := ar.rect_global st.baseArea }
  | SAct.wait _ =>
    { st with done := st.done + 1, progress := st.progress ++ [(st.done + 1, st.total)] }

/-- One full pass of `MacroPlayer.run` over the action list with
`repeat.enabled = false`: `total = max(1, sum of per-action estimates)`, one
pass, then the loop ends and the end state remains the initial `"done"`. -/
def runRecordOnce (vg : QR) (acts : List SAct) : MiniState :=
  acts.foldl miniStep
    (MiniState.mk vg vg 0 (max 1 (acts.foldl (fun n a => n + estimateProgressItem a) 0)) []
      initEnd)

/-- The record of the C9 scenario: `BaseArea(0,0,100,100)` with click, a
relative `Area` `0.1,0.1 → 0.5,0.5` with click and a left-mouse trigger, and
a fixed 0.2 s `Wait`. -/
def c9acts : List SAct :=
  [SAct.base (BaseA.mk 0 0 100 100 true),
   SAct.area (AreaA.mk 0 0 0 0 CoordMode.rel (1/10) (1/10) (1/2) (1/2) true),
   SAct.wait (1/5)]

/-- C9 counterexample: running the scenario record to completion emits
exactly one progress increment, not two — `Area` actions neither count
toward the total nor emit progress. -/
theorem c9_progress_counterexample :
    (runRecordOnce (QR.mk 0 0 1919 1079) c9acts).progress.length = 1 ∧
    (runRecordOnce (QR.mk 0 0 1919 1079) c9acts).progress.length ≠ 2 := by
  norm_num [runRecordOnce, c9acts, miniStep, estimateProgressItem]

/-- C9 amended: running the scenario record to completion emits exactly one
progress increment — the `Wait` step, the only steppable action (`Area`
contributes neither to the total nor to progress) — the reported done count
reaches the derived total `1`, and the run finishes with end state
`"done"`. -/
theorem c9_run_done (vg : QR) :
    (runRecordOnce vg c9acts).progress = [(1, 1)] ∧
    (runRecordOnce vg c9acts).done = (runRecordOnce vg c9acts).total ∧
    (runRecordOnce vg c9acts).ends.state = "done" := by
  norm_num [runRecordOnce, c9acts, miniStep, estimateProgressItem, initEnd]

end Atari
